import Mathlib

/-!
Verification of the computechain/explorer block indexer core
(`backend/indexer/service.py`, `backend/indexer/client.py`,
`backend/models/*.py`, `backend/core/database.py`).

The Python code is shallowly embedded: pure helpers become Lean
functions, the database session becomes explicit state passing on a
`DB` record, and the commit-or-rollback semantics of
`get_session_context` becomes an `Except` result where the error case
leaves the pre-state untouched.
-/

namespace Explorer

/-! ### SHA-256 (`hashlib.sha256(...).hexdigest()`), over byte lists -/

def w32 (x : Nat) : Nat := x % 4294967296

def rotr32 (n x : Nat) : Nat := w32 ((x >>> n) ||| (x <<< (32 - n)))

def shr32 (n x : Nat) : Nat := x >>> n

def bsig0 (x : Nat) : Nat := rotr32 2 x ^^^ rotr32 13 x ^^^ rotr32 22 x

def bsig1 (x : Nat) : Nat := rotr32 6 x ^^^ rotr32 11 x ^^^ rotr32 25 x

def ssig0 (x : Nat) : Nat := rotr32 7 x ^^^ rotr32 18 x ^^^ shr32 3 x

def ssig1 (x : Nat) : Nat := rotr32 17 x ^^^ rotr32 19 x ^^^ shr32 10 x

def chB (x y z : Nat) : Nat := (x &&& y) ^^^ ((x ^^^ 4294967295) &&& z)

def majB (x y z : Nat) : Nat := (x &&& y) ^^^ (x &&& z) ^^^ (y &&& z)

def sha256K : List Nat :=
  [1116352408, 1899447441, 3049323471, 3921009573, 961987163, 1508970993,
   2453635748, 2870763221, 3624381080, 310598401, 607225278, 1426881987,
   1925078388, 2162078206, 2614888103, 3248222580, 3835390401, 4022224774,
   264347078, 604807628, 770255983, 1249150122, 1555081692, 1996064986,
   2554220882, 2821834349, 2952996808, 3210313671, 3336571891, 3584528711,
   113926993, 338241895, 666307205, 773529912, 1294757372, 1396182291,
   1695183700, 1986661051, 2177026350, 2456956037, 2730485921, 2820302411,
   3259730800, 3345764771, 3516065817, 3600352804, 4094571909, 275423344,
   430227734, 506948616, 659060556, 883997877, 958139571, 1322822218,
   1537002063, 1747873779, 1955562222, 2024104815, 2227730452, 2361852424,
   2428436474, 2756734187, 3204031479, 3329325298]

def sha256H0 : List Nat :=
  [1779033703, 3144134277, 1013904242, 2773480762, 1359893119, 2600822924,
   528734635, 1541459225]

/-- `k` bytes of `n`, big-endian. -/
def beBytes : Nat → Nat → List Nat
  | 0, _ => []
  | k + 1, n => beBytes k (n / 256) ++ [n % 256]

def sha256pad (msg : List Nat) : List Nat :=
  let L := msg.length
  let zeros := (55 + 64 - L % 64) % 64
  msg ++ [128] ++ List.replicate zeros 0 ++ beBytes 8 (8 * L)

def toWords : List Nat → List Nat
  | b0 :: b1 :: b2 :: b3 :: rest => (((b0 * 256 + b1) * 256 + b2) * 256 + b3) :: toWords rest
  | _ => []

def chunksAux : Nat → List Nat → List (List Nat)
  | 0, _ => []
  | _, [] => []
  | fuel + 1, l => l.take 64 :: chunksAux fuel (l.drop 64)

def chunks64 (l : List Nat) : List (List Nat) := chunksAux l.length l

/-- Message-schedule extension; `acc` holds the words generated so far,
newest first. -/
def extendSchedule : List Nat → Nat → List Nat
  | acc, 0 => acc.reverse
  | acc, n + 1 =>
    let g := fun i => acc.getD i 0
    extendSchedule (w32 (ssig1 (g 1) + g 6 + ssig0 (g 14) + g 15) :: acc) n

def schedule (ws : List Nat) : List Nat := extendSchedule ws.reverse 48

def roundStep (st : Nat × Nat × Nat × Nat × Nat × Nat × Nat × Nat) (kw : Nat × Nat) :
    Nat × Nat × Nat × Nat × Nat × Nat × Nat × Nat :=
  let (a, b, c, d, e, f, g, hh) := st
  let t1 := w32 (hh + bsig1 e + chB e f g + kw.1 + kw.2)
  let t2 := w32 (bsig0 a + majB a b c)
  (w32 (t1 + t2), a, b, c, w32 (d + t1), e, f, g)

def compress (hs : List Nat) (chunk : List Nat) : List Nat :=
  let ws := schedule (toWords chunk)
  let init := (hs.getD 0 0, hs.getD 1 0, hs.getD 2 0, hs.getD 3 0,
               hs.getD 4 0, hs.getD 5 0, hs.getD 6 0, hs.getD 7 0)
  let (a, b, c, d, e, f, g, hh) := (sha256K.zip ws).foldl roundStep init
  [w32 (hs.getD 0 0 + a), w32 (hs.getD 1 0 + b), w32 (hs.getD 2 0 + c), w32 (hs.getD 3 0 + d),
   w32 (hs.getD 4 0 + e), w32 (hs.getD 5 0 + f), w32 (hs.getD 6 0 + g), w32 (hs.getD 7 0 + hh)]

def sha256bytes (msg : List Nat) : List Nat :=
  ((chunks64 (sha256pad msg)).foldl compress sha256H0).flatMap (beBytes 4)

def hexDigit (n : Nat) : Char := if n < 10 then Char.ofNat (48 + n) else Char.ofNat (87 + n)

def byteHex (b : Nat) : String := String.mk [hexDigit (b / 16), hexDigit (b % 16)]

def sha256hex (msg : List Nat) : String := String.join ((sha256bytes msg).map byteHex)

/-! ### `str.encode()` (UTF-8) and `json.dumps` string escaping -/

def utf8Char (c : Char) : List Nat :=
  let n := c.toNat
  if n < 128 then [n]
  else if n < 2048 then [192 + n / 64, 128 + n % 64]
  else if n < 65536 then [224 + n / 4096, 128 + (n / 64) % 64, 128 + n % 64]
  else [240 + n / 262144, 128 + (n / 4096) % 64, 128 + (n / 64) % 64, 128 + n % 64]

def utf8Bytes (s : String) : List Nat := s.data.flatMap utf8Char

def hex4 (n : Nat) : String :=
  String.mk [hexDigit (n / 4096 % 16), hexDigit (n / 256 % 16), hexDigit (n / 16 % 16), hexDigit (n % 16)]

/-- One character of Python `json.dumps` output (default `ensure_ascii=True`):
escapes backslash, double quote, and everything outside the printable
ASCII range 0x20..0x7e. -/
def escapeChar (c : Char) : String :=
  if c = '"' then "\\\""
  else if c = '\\' then "\\\\"
  else if c = Char.ofNat 8 then "\\b"
  else if c = Char.ofNat 9 then "\\t"
  else if c = Char.ofNat 10 then "\\n"
  else if c = Char.ofNat 12 then "\\f"
  else if c = Char.ofNat 13 then "\\r"
  else if c.toNat < 32 then "\\u" ++ hex4 c.toNat
  else if c.toNat < 127 then String.singleton c
  else if c.toNat < 65536 then "\\u" ++ hex4 c.toNat
  else
    let v := c.toNat - 65536
    "\\u" ++ hex4 (55296 + v / 1024) ++ "\\u" ++ hex4 (56320 + v % 1024)

def jsonEscape (s : String) : String := String.join (s.data.map escapeChar)

def jsonString (s : String) : String := "\"" ++ jsonEscape s ++ "\""

/-- JSON rendering of a possibly-absent string (`None` → `null`). -/
def jsonOptStr : Option String → String
  | none => "null"
  | some s => jsonString s

/-- JSON rendering of a possibly-absent integer (`None` → `null`). -/
def jsonOptNat : Option Nat → String
  | none => "null"
  | some n => toString n

/-! ### Raw chain data (`RawBlock` JSON from the Chain Source)

Fields read with `dict.get` in the Python code are `Option`-valued here;
a `none` models an absent key (Python `None`). -/

structure HeaderData where
  height : Option Nat
  prev_hash : Option String
  timestamp : Option Nat
  chain_id : Option String
  proposer_address : Option String
  tx_root : Option String
  state_root : Option String
  compute_root : Option String
  gas_used : Option Nat
  gas_limit : Option Nat
  zk_state_proof_hash : Option String
  zk_compute_proof_hash : Option String
deriving DecidableEq

structure TxData where
  tx_type : Option String
  from_address : Option String
  to_address : Option String
  amount : Option Nat
  fee : Option Nat
  nonce : Option Nat
  gas_price : Option Nat
  gas_limit : Option Nat
  gas_used : Option Nat
  signature : Option String
  pub_key : Option String
  payload : Option String
deriving DecidableEq

structure BlockData where
  header : HeaderData
  txs : List TxData
  pq_signature : Option String
  pq_sig_scheme_id : Option Nat
deriving DecidableEq

/-! ### `BlockchainClient.compute_block_hash` / `compute_tx_hash`

`json.dumps({...}, sort_keys=True)` of the fixed field subsets, then
`hashlib.sha256(s.encode()).hexdigest()`.  Keys are emitted here in
sorted order with the default `", "` / `": "` separators, exactly as
`json.dumps` prints them. -/

def blockHashInput (b : BlockData) : String :=
  "\x7b\"height\": " ++ jsonOptNat b.header.height ++
  ", \"prev_hash\": " ++ jsonOptStr b.header.prev_hash ++
  ", \"state_root\": " ++ jsonOptStr b.header.state_root ++
  ", \"timestamp\": " ++ jsonOptNat b.header.timestamp ++
  ", \"tx_root\": " ++ jsonOptStr b.header.tx_root ++ "\x7d"

def compute_block_hash (b : BlockData) : String := sha256hex (utf8Bytes (blockHashInput b))

def txHashInput (tx : TxData) : String :=
  "\x7b\"amount\": " ++ jsonOptNat tx.amount ++
  ", \"from_address\": " ++ jsonOptStr tx.from_address ++
  ", \"nonce\": " ++ jsonOptNat tx.nonce ++
  ", \"signature\": " ++ jsonOptStr tx.signature ++
  ", \"to_address\": " ++ jsonOptStr tx.to_address ++
  ", \"tx_type\": " ++ jsonOptStr tx.tx_type ++ "\x7d"

def compute_tx_hash (tx : TxData) : String := sha256hex (utf8Bytes (txHashInput tx))

/-- The block fields `compute_block_hash` reads (spec §4.2's hashed subset). -/
def blockHashedFields (b : BlockData) :
    Option Nat × Option String × Option Nat × Option String × Option String :=
  (b.header.height, b.header.prev_hash, b.header.timestamp, b.header.tx_root, b.header.state_root)

/-- The transaction fields `compute_tx_hash` reads (spec §4.2's hashed subset). -/
def txHashedFields (tx : TxData) :
    Option String × Option String × Option String × Option Nat × Option Nat × Option String :=
  (tx.tx_type, tx.from_address, tx.to_address, tx.amount, tx.nonce, tx.signature)

/-! ### Stored rows (`models/block.py`, `models/transaction.py`, `models/account.py`)

Autoincrement ids and `indexed_at` timestamps are not modelled; wall-clock
time is a `Nat` passed in as `now` where `datetime.utcnow()` is read. -/

inductive TxType
  | TRANSFER | STAKE | UNSTAKE | DELEGATE | UNDELEGATE
  | UPDATE_VALIDATOR | UNJAIL | COMPUTE | SUBMIT_RESULT
deriving DecidableEq

/-- `TxType(s)`: Python raises `ValueError` on an unknown tag, here `none`. -/
def TxType.ofString (s : String) : Option TxType :=
  if s = "TRANSFER" then some .TRANSFER
  else if s = "STAKE" then some .STAKE
  else if s = "UNSTAKE" then some .UNSTAKE
  else if s = "DELEGATE" then some .DELEGATE
  else if s = "UNDELEGATE" then some .UNDELEGATE
  else if s = "UPDATE_VALIDATOR" then some .UPDATE_VALIDATOR
  else if s = "UNJAIL" then some .UNJAIL
  else if s = "COMPUTE" then some .COMPUTE
  else if s = "SUBMIT_RESULT" then some .SUBMIT_RESULT
  else none

structure BlockRow where
  height : Nat
  hash : String
  prev_hash : String
  timestamp : Nat
  chain_id : String
  proposer_address : String
  tx_root : String
  state_root : String
  compute_root : Option String
  gas_used : Nat
  gas_limit : Nat
  tx_count : Nat
  zk_state_proof_hash : Option String
  zk_compute_proof_hash : Option String
  pq_signature : Option String
  pq_sig_scheme_id : Option Nat
deriving DecidableEq

structure TxRow where
  hash : String
  block_height : Nat
  tx_type : TxType
  from_address : String
  to_address : Option String
  amount : Nat
  fee : Nat
  nonce : Nat
  gas_price : Nat
  gas_limit : Nat
  gas_used : Nat
  signature : String
  pub_key : String
  payload : String
  tx_index : Nat
deriving DecidableEq

structure AccountRow where
  address : String
  balance : Nat
  nonce : Nat
  tx_count : Nat
  tx_sent_count : Nat
  tx_received_count : Nat
  first_seen_height : Option Nat
  last_seen_height : Option Nat
  first_seen_at : Option Nat
  last_seen_at : Option Nat
  is_validator : Bool
  updated_at : Nat
deriving DecidableEq

/-- The persistent store: blocks, transactions, accounts, and the
`sync_status` watermark row (`none` = no `last_indexed_height` row). -/
structure DB where
  blocks : List BlockRow
  txs : List TxRow
  accounts : List AccountRow
  watermark : Option Nat
deriving DecidableEq

def emptyDB : DB := ⟨[], [], [], none⟩

/-- `_get_indexed_height`: the watermark row's value, or 0 when absent. -/
def getIndexedHeight (db : DB) : Nat := db.watermark.getD 0

/-- `select(Block).where(Block.height == h)` + `scalar_one_or_none()`. -/
def findBlock (db : DB) (h : Nat) : Option BlockRow :=
  db.blocks.find? (fun b => b.height == h)

def findAccount (accs : List AccountRow) (addr : String) : Option AccountRow :=
  accs.find? (fun a => a.address == addr)

/-! ### `_index_blocks_batch` (Block Persister)

`get_session_context` commits the session on success and rolls the whole
transaction back on any exception, re-raising it; that is embedded as an
`Except`: `.ok db'` is the committed state, `.error e` leaves the
pre-state untouched (see `applyBatch`).  Exceptions modelled: a missing
`header["height"]` (`KeyError`), an unknown `tx_type` tag
(`TxType(...)` raising `ValueError`), and a unique-constraint violation
surfacing at flush/commit time for the insert-only `session.add` rows. -/

inductive IndexErr
  | missingHeight
  | unknownTxType
  | uniqueViolation
deriving DecidableEq

/-- The `Transaction(...)` row built at service.py:176-192. -/
def mkTxRow (height idx : Nat) (ty : TxType) (tx : TxData) : TxRow :=
  { hash := compute_tx_hash tx
  , block_height := height
  , tx_type := ty
  , from_address := tx.from_address.getD ""
  , to_address := tx.to_address
  , amount := tx.amount.getD 0
  , fee := tx.fee.getD 0
  , nonce := tx.nonce.getD 0
  , gas_price := tx.gas_price.getD 0
  , gas_limit := tx.gas_limit.getD 0
  , gas_used := tx.gas_limit.getD 0
  , signature := tx.signature.getD ""
  , pub_key := tx.pub_key.getD ""
  , payload := tx.payload.getD "\x7b\x7d"
  , tx_index := idx }

/-- The `Block(...)` row built at service.py:153-170. -/
def mkBlockRow (height : Nat) (bd : BlockData) : BlockRow :=
  { height := height
  , hash := compute_block_hash bd
  , prev_hash := bd.header.prev_hash.getD ""
  , timestamp := bd.header.timestamp.getD 0
  , chain_id := bd.header.chain_id.getD ""
  , proposer_address := bd.header.proposer_address.getD ""
  , tx_root := bd.header.tx_root.getD ""
  , state_root := bd.header.state_root.getD ""
  , compute_root := bd.header.compute_root
  , gas_used := bd.header.gas_used.getD 0
  , gas_limit := bd.header.gas_limit.getD 0
  , tx_count := bd.txs.length
  , zk_state_proof_hash := bd.header.zk_state_proof_hash
  , zk_compute_proof_hash := bd.header.zk_compute_proof_hash
  , pq_signature := bd.pq_signature
  , pq_sig_scheme_id := bd.pq_sig_scheme_id }

/-- Transaction rows of one block, `tx_index` assigned by position. -/
def txRowsOfBlock (height : Nat) : List TxData → Nat → Except IndexErr (List TxRow)
  | [], _ => .ok []
  | tx :: rest, idx =>
    match TxType.ofString (tx.tx_type.getD "TRANSFER") with
    | none => .error .unknownTxType
    | some ty =>
      match txRowsOfBlock height rest (idx + 1) with
      | .error e => .error e
      | .ok rows => .ok (mkTxRow height idx ty tx :: rows)

/-- `if tx_data.get("from_address"):` — Python truthiness: present and
non-empty. -/
def addrOf : Option String → List String
  | none => []
  | some s => if s = "" then [] else [s]

def collectAddrs (txs : List TxData) : List String :=
  txs.flatMap (fun tx => addrOf tx.from_address ++ addrOf tx.to_address)

def processBlock (bd : BlockData) : Except IndexErr (BlockRow × List TxRow) :=
  match bd.header.height with
  | none => .error .missingHeight
  | some h =>
    match txRowsOfBlock h bd.txs 0 with
    | .error e => .error e
    | .ok rows => .ok (mkBlockRow h bd, rows)

/-- The per-block loop of `_index_blocks_batch`: pending block rows,
pending transaction rows, collected addresses, and the running
`max_height` (initialised to 0). -/
def processBlocks : List BlockData → Except IndexErr (List BlockRow × List TxRow × List String × Nat)
  | [] => .ok ([], [], [], 0)
  | bd :: rest =>
    match processBlock bd with
    | .error e => .error e
    | .ok (br, trs) =>
      match processBlocks rest with
      | .error e => .error e
      | .ok (bl, tl, al, m) => .ok (br :: bl, trs ++ tl, collectAddrs bd.txs ++ al, max br.height m)

def memB [DecidableEq α] (x : α) : List α → Bool
  | [] => false
  | y :: r => if y = x then true else memB x r

/-- New values violate no unique constraint: none clashes with an
existing value and none repeats inside the batch. -/
def freshOk [DecidableEq α] (old : List α) : List α → Bool
  | [] => true
  | x :: r => !memB x old && !memB x r && freshOk old r

/-- The unique constraints hit at flush time: `blocks.height`,
`blocks.hash`, `transactions.hash` (all `unique=True`). -/
def uniqueOkB (db : DB) (nb : List BlockRow) (nt : List TxRow) : Bool :=
  freshOk (db.blocks.map BlockRow.height) (nb.map BlockRow.height) &&
  freshOk (db.blocks.map BlockRow.hash) (nb.map BlockRow.hash) &&
  freshOk (db.txs.map TxRow.hash) (nt.map TxRow.hash)

/-- One `insert(Account).values(...).on_conflict_do_update(...)` from
`_update_accounts_batch`: the insert sets only the listed columns
(no `first_seen_*`); the conflict branch updates only the
`last_seen_*`/`updated_at` columns. -/
def upsertAccount (now h : Nat) (accs : List AccountRow) (addr : String) : List AccountRow :=
  if memB addr (accs.map AccountRow.address) then
    accs.map fun a =>
      if a.address = addr then
        { a with last_seen_height := some h, last_seen_at := some now, updated_at := now }
      else a
  else
    accs ++ [{ address := addr
             , balance := 0
             , nonce := 0
             , tx_count := 0
             , tx_sent_count := 0
             , tx_received_count := 0
             , first_seen_height := none
             , last_seen_height := some h
             , first_seen_at := none
             , last_seen_at := some now
             , is_validator := false
             , updated_at := now }]

/-- `_update_accounts_batch` over the collected address set. -/
def updateAccountsBatch (now h : Nat) (accs : List AccountRow) (addrs : List String) :
    List AccountRow :=
  addrs.foldl (upsertAccount now h) accs

/-- `_index_blocks_batch`: the whole batch in one transaction.  Empty
input returns before opening a session.  On success the session commit
makes the pending rows, the account upserts, and the watermark upsert
(`_set_indexed_height` to the running `max_height`) visible at once. -/
def indexBlocksBatch (now : Nat) (db : DB) (bs : List BlockData) : Except IndexErr DB :=
  if bs.isEmpty then .ok db
  else
    match processBlocks bs with
    | .error e => .error e
    | .ok (nb, nt, addrs, maxH) =>
      if uniqueOkB db nb nt then
        .ok { blocks := db.blocks ++ nb
            , txs := db.txs ++ nt
            , accounts :=
                if addrs.isEmpty then db.accounts
                else updateAccountsBatch now maxH db.accounts addrs.dedup
            , watermark := some maxH }
      else .error .uniqueViolation

/-- The store state visible after `_index_blocks_batch` returns or
raises: commit on success, rollback (pre-state) on any exception. -/
def applyBatch (now : Nat) (db : DB) (bs : List BlockData) : DB :=
  match indexBlocksBatch now db bs with
  | .ok db' => db'
  | .error _ => db

def exOk {α : Type} : Except IndexErr α → Bool
  | .ok _ => true
  | .error _ => false

/-! ### `_sync_blocks_batch` (Batch Fetcher + persist loop) -/

/-- `BATCH_SIZE = 50`. -/
def BATCH_SIZE : Nat := 50

/-- The `(batch_start, batch_end)` pairs of
`range(start_height, end_height + 1, BATCH_SIZE)` with
`batch_end = min(batch_start + BATCH_SIZE - 1, end_height)`. -/
def subBatchesAux : Nat → Nat → Nat → List (Nat × Nat)
  | 0, _, _ => []
  | fuel + 1, s, e =>
    if e < s then []
    else (s, min (s + (BATCH_SIZE - 1)) e) :: subBatchesAux fuel (s + BATCH_SIZE) e

def subBatches (s e : Nat) : List (Nat × Nat) := subBatchesAux (e + 1 - s) s e

/-- One sub-batch fetch: heights requested in ascending order,
`asyncio.gather` returns results in request order, and failed or empty
fetches are dropped individually (the `valid_blocks` filter). -/
def fetchBatch (f : Nat → Option BlockData) (bs be : Nat) : List BlockData :=
  (List.range' bs (be - bs + 1)).filterMap f

/-- The sub-batch loop: a sub-batch with zero valid blocks breaks out of
the loop (`break`); a persist exception propagates (`.some e`) with
earlier sub-batches already committed. -/
def syncGo (now : Nat) (f : Nat → Option BlockData) : DB → List (Nat × Nat) → DB × Option IndexErr
  | db, [] => (db, none)
  | db, (bs, be) :: rest =>
    if (fetchBatch f bs be).isEmpty then (db, none)
    else
      match indexBlocksBatch now db (fetchBatch f bs be) with
      | .ok db' => syncGo now f db' rest
      | .error e => (db, some e)

/-- `_sync_blocks_batch(start_height, end_height)` against a chain
source `f`. -/
def syncBlocksBatch (now : Nat) (f : Nat → Option BlockData) (db : DB) (s e : Nat) :
    DB × Option IndexErr :=
  syncGo now f db (subBatches s e)

/-! ### `_check_reorg` (Reorg Detector) and `_handle_reorg` (Reorg Handler) -/

/-- `range(indexed_height, check_from - 1, -1)`: heights from `hi` down
to `lo` (empty when `hi < lo`). -/
def countdown : Nat → Nat → List Nat
  | 0, lo => if lo = 0 then [0] else []
  | hi + 1, lo => if hi + 1 < lo then [] else (hi + 1) :: countdown hi lo

/-- The scan loop body of `_check_reorg`: skip heights with no local
block, skip heights the source cannot return, stop at the first hash
mismatch. -/
def scanHeights (db : DB) (f : Nat → Option BlockData) : List Nat → Option Nat
  | [] => none
  | h :: rest =>
    match findBlock db h with
    | none => scanHeights db f rest
    | some b =>
      match f h with
      | none => scanHeights db f rest
      | some cb => if b.hash ≠ compute_block_hash cb then some h else scanHeights db f rest

/-- `_check_reorg` up to the point where `reorg_height` is decided:
`rd` is `settings.resync_depth` (default 10). -/
def checkReorgScan (rd : Nat) (db : DB) (f : Nat → Option BlockData) : Option Nat :=
  let indexed := getIndexedHeight db
  if indexed = 0 then none
  else scanHeights db f (countdown indexed (max 1 (indexed - rd)))

/-- The rewind transaction of `_handle_reorg` (service.py:275-282):
delete transactions at and above `from_height`, then blocks, then set
the watermark to `from_height - 1`, committed as one session. -/
def handleReorgRewind (db : DB) (fromHeight : Nat) : DB :=
  { blocks := db.blocks.filter (fun b => b.height < fromHeight)
  , txs := db.txs.filter (fun t => t.block_height < fromHeight)
  , accounts := db.accounts
  , watermark := some (fromHeight - 1) }

/-! ### Transaction/network event traces (spec §5)

To talk about "no store transaction spans a network call" each relevant
coroutine is given a trace of the store-transaction boundaries
(`async with get_session_context()`) and Chain Source calls it performs,
in program order. -/

inductive Ev
  | txBegin
  | txEnd
  | netCall
deriving DecidableEq

/-- `_get_indexed_height`: opens a session, queries, closes. -/
def getIndexedHeightTrace : List Ev := [.txBegin, .txEnd]

/-- `_index_blocks_batch`: returns before any session when the batch is
empty; otherwise one session with no network call inside. -/
def indexBlocksBatchTrace (bs : List BlockData) : List Ev :=
  if bs.isEmpty then [] else [.txBegin, .txEnd]

/-- The rewind session of `_handle_reorg` (service.py:275-282). -/
def handleReorgRewindTrace : List Ev := [.txBegin, .txEnd]

/-- Events of the `_check_reorg` scan loop: a `client.get_block` network
call for every probed height that has a local block, all inside the one
session opened at service.py:248. -/
def scanTrace (db : DB) (f : Nat → Option BlockData) : List Nat → List Ev
  | [] => []
  | h :: rest =>
    match findBlock db h with
    | none => scanTrace db f rest
    | some b =>
      .netCall ::
        match f h with
        | none => scanTrace db f rest
        | some cb => if b.hash ≠ compute_block_hash cb then [] else scanTrace db f rest

/-- `_check_reorg` through the close of its scan session: the
`_get_indexed_height` session, then (unless the watermark is 0) the scan
session wrapping the whole loop.  The `_handle_reorg` call that may
follow runs after this session has closed. -/
def checkReorgTrace (rd : Nat) (db : DB) (f : Nat → Option BlockData) : List Ev :=
  getIndexedHeightTrace ++
    (let indexed := getIndexedHeight db
     if indexed = 0 then []
     else [.txBegin] ++ scanTrace db f (countdown indexed (max 1 (indexed - rd))) ++ [.txEnd])

def noNetAux : Bool → List Ev → Bool
  | _, [] => true
  | _, .txBegin :: r => noNetAux true r
  | _, .txEnd :: r => noNetAux false r
  | inTx, .netCall :: r => !inTx && noNetAux inTx r

/-- No network call occurs between a transaction begin and its end. -/
def noNetDuringTx (t : List Ev) : Bool := noNetAux false t

/-! ### Concrete scenario inputs -/

/-- A raw block at height `h` as the local chain first saw it. -/
def blkD (h : Nat) : BlockData :=
  { header :=
      { height := some h
      , prev_hash := some "aa"
      , timestamp := some (1000 + h)
      , chain_id := some "computechain-1"
      , proposer_address := some "val1"
      , tx_root := some "t0"
      , state_root := some "s0"
      , compute_root := none
      , gas_used := some 21000
      , gas_limit := some 30000
      , zk_state_proof_hash := none
      , zk_compute_proof_hash := none }
  , txs := []
  , pq_signature := none
  , pq_sig_scheme_id := none }

/-- The reorganised block the Chain Source now reports at height `h`:
same height, different `tx_root` (a hashed field). -/
def blkR (h : Nat) : BlockData :=
  { blkD h with header := { (blkD h).header with tx_root := some "t1" } }

/-- Local store holding the chain of heights 1..10 indexed from the
original blocks, watermark 10. -/
def db10 : DB :=
  { blocks := (List.range' 1 10).map (fun h => mkBlockRow h (blkD h))
  , txs := []
  , accounts := []
  , watermark := some 10 }

/-- Chain Source after the reorg: heights 1..6 unchanged, a different
canonical block at every height from 7 upward. -/
def f10 : Nat → Option BlockData :=
  fun h => if h ≤ 10 then (if 7 ≤ h then some (blkR h) else some (blkD h)) else none

/-- A block identical to `blkD 1` except in `gas_used`, a field outside
the hashed subset. -/
def blkGas : BlockData :=
  { blkD 1 with header := { (blkD 1).header with gas_used := some 999999 } }

/-- A well-formed transfer whose source `gas_used` (21000) differs from
its `gas_limit` (30000). -/
def txG : TxData :=
  { tx_type := some "TRANSFER"
  , from_address := some "alice"
  , to_address := some "bob"
  , amount := some 5
  , fee := some 1
  , nonce := some 0
  , gas_price := some 1
  , gas_limit := some 30000
  , gas_used := some 21000
  , signature := some "sig1"
  , pub_key := some "pk1"
  , payload := none }

/-- `txG` with a different `gas_used`, a field outside the hashed subset. -/
def txGmod : TxData := { txG with gas_used := some 7 }

/-- A transaction with an unknown `tx_type` tag: `TxType("FOO")` raises
`ValueError`. -/
def txBad : TxData := { txG with tx_type := some "FOO" }

/-- A block carrying the unparseable transaction. -/
def blkBad : BlockData := { blkD 1 with txs := [txBad] }

/-- A block at height 1 carrying `txG`. -/
def blkT : BlockData := { blkD 1 with txs := [txG] }

/-- Store with a single indexed block at height 1. -/
def dbC8 : DB :=
  { blocks := [mkBlockRow 1 (blkD 1)], txs := [], accounts := [], watermark := some 1 }

/-- A chain source that is unreachable at every height. -/
def fNone : Nat → Option BlockData := fun _ => none

/-- Chain source for heights 101..150 with height 120 failing. -/
def fC6 : Nat → Option BlockData :=
  fun h => if 101 ≤ h ∧ h ≤ 150 ∧ h ≠ 120 then some (blkD h) else none

/-- Successful heights of a probe list: `l.filterMap` keeping `h` when
`f h` fetches. -/
def succHs (f : Nat → Option BlockData) (l : List Nat) : List Nat :=
  l.filterMap (fun h => (f h).map (fun _ => h))

/-- Header heights of a raw batch, in order. -/
def heightsOfBatch (bs : List BlockData) : List Nat :=
  bs.filterMap (fun bd => bd.header.height)

def maxOf (l : List Nat) : Nat := l.foldr max 0

/-- The watermark value as the coordinator reads it. -/
def WM (db : DB) : Nat := getIndexedHeight db

/-- One coordinator-driven batch: non-empty, persists successfully, and
(as guaranteed by the `[W+1, C]` sync range) contains only heights above
the current watermark. -/
def okStep (now : Nat) (db : DB) (bs : List BlockData) : Prop :=
  bs ≠ [] ∧ exOk (indexBlocksBatch now db bs) = true ∧
    ∀ h ∈ heightsOfBatch bs, WM db < h

def okSeq (now : Nat) : DB → List (List BlockData) → Prop
  | _, [] => True
  | db, bs :: rest => okStep now db bs ∧ okSeq now (applyBatch now db bs) rest

def runBatches (now : Nat) : DB → List (List BlockData) → DB
  | db, [] => db
  | db, bs :: rest => runBatches now (applyBatch now db bs) rest

/-- The watermark equals the maximum height committed so far. -/
def wmInv (db : DB) : Prop := WM db = maxOf (db.blocks.map BlockRow.height)

/-- The fields `_update_accounts_batch` actually writes on a fresh
insert: `last_seen_*` set, `first_seen_*` left NULL. -/
def freshAccountFields (now h : Nat) (a : AccountRow) : Prop :=
  a.first_seen_height = none ∧ a.first_seen_at = none ∧
    a.last_seen_height = some h ∧ a.last_seen_at = some now

/-- Either the row's address predates the batch or the row carries the
fresh-insert fields. -/
def accOk (now h : Nat) (base : List String) (a : AccountRow) : Prop :=
  a.address ∈ base ∨ freshAccountFields now h a

/-- The Account row `_update_accounts_batch` inserts for the unseen
address `"alice"` at batch height 3, time 5. -/
def rowAlice : AccountRow :=
  { address := "alice"
  , balance := 0
  , nonce := 0
  , tx_count := 0
  , tx_sent_count := 0
  , tx_received_count := 0
  , first_seen_height := none
  , last_seen_height := some 3
  , first_seen_at := none
  , last_seen_at := some 5
  , is_validator := false
  , updated_at := 5 }

end Explorer

/-- SHA-256 test vector: digest of `"abc"`. -/
example : Explorer.sha256hex (Explorer.utf8Bytes "abc") =
    "ba7816bf8f01cfea414140de5dae2223b00361a396177a9cb410ff61f20015ad" := by decide

namespace Explorer

/-! ### Basic lemmas about the boolean helpers -/

theorem memB_eq_true {α : Type} [DecidableEq α] (x : α) (l : List α) :
    memB x l = true ↔ x ∈ l := by
  induction l with
  | nil => simp [memB]
  | cons y r ih =>
    simp only [memB]
    by_cases h : y = x
    · subst h; simp
    · simp only [if_neg h, ih, List.mem_cons]
      constructor
      · exact Or.inr
      · rintro (rfl | hy)
        · exact absurd rfl h
        · exact hy

theorem freshOk_sound {α : Type} [DecidableEq α] (old new : List α)
    (h : freshOk old new = true) : (∀ x ∈ new, x ∉ old) ∧ new.Nodup := by
  induction new with
  | nil => simp
  | cons x r ih =>
    simp only [freshOk, Bool.and_eq_true, Bool.not_eq_true'] at h
    obtain ⟨⟨h1, h2⟩, h3⟩ := h
    obtain ⟨ih1, ih2⟩ := ih h3
    refine ⟨?_, List.nodup_cons.mpr ⟨?_, ih2⟩⟩
    · intro y hy
      rcases List.mem_cons.mp hy with rfl | hy'
      · intro hc
        rw [(memB_eq_true y old).mpr hc] at h1
        cases h1
      · exact ih1 y hy'
    · intro hc
      rw [(memB_eq_true x r).mpr hc] at h2
      cases h2

/-! ### Structure of a successful `_index_blocks_batch` run -/

theorem indexBlocksBatch_ok_shape (now : Nat) (db : DB) (bs : List BlockData) (db' : DB)
    (h : indexBlocksBatch now db bs = .ok db') (hne : bs ≠ []) :
    ∃ nb nt addrs maxH,
      processBlocks bs = .ok (nb, nt, addrs, maxH) ∧
      uniqueOkB db nb nt = true ∧
      db'.blocks = db.blocks ++ nb ∧
      db'.txs = db.txs ++ nt ∧
      db'.watermark = some maxH := by
  unfold indexBlocksBatch at h
  rw [if_neg (by simpa using hne)] at h
  split at h
  · cases h
  · rename_i nb nt addrs maxH heq
    split at h
    · rename_i hu
      injection h with h'
      exact ⟨nb, nt, addrs, maxH, heq, hu, by rw [← h'], by rw [← h'], by rw [← h']⟩
    · cases h

theorem processBlock_ok_height (bd : BlockData) (br : BlockRow) (trs : List TxRow)
    (h : processBlock bd = .ok (br, trs)) : bd.header.height = some br.height := by
  unfold processBlock at h
  split at h
  · cases h
  · rename_i v hh
    split at h
    · cases h
    · rename_i rows ht
      injection h with h'
      have h1 : mkBlockRow v bd = br := (Prod.ext_iff.mp h').1
      rw [hh, ← h1]
      rfl

theorem processBlocks_cons_ok (bd : BlockData) (rest : List BlockData)
    (nb : List BlockRow) (nt : List TxRow) (addrs : List String) (m : Nat)
    (h : processBlocks (bd :: rest) = .ok (nb, nt, addrs, m)) :
    ∃ br trs bl tl al m',
      processBlock bd = .ok (br, trs) ∧
      processBlocks rest = .ok (bl, tl, al, m') ∧
      nb = br :: bl ∧ nt = trs ++ tl ∧ addrs = collectAddrs bd.txs ++ al ∧
      m = max br.height m' := by
  unfold processBlocks at h
  split at h
  · cases h
  · rename_i br trs hb
    split at h
    · cases h
    · rename_i bl tl al m' hr
      injection h with h'
      refine ⟨br, trs, bl, tl, al, m', hb, hr, ?_, ?_, ?_, ?_⟩
      · exact (congrArg (fun x => x.1) h').symm
      · exact (congrArg (fun x => x.2.1) h').symm
      · exact (congrArg (fun x => x.2.2.1) h').symm
      · exact (congrArg (fun x => x.2.2.2) h').symm

theorem processBlocks_heights (bs : List BlockData) (nb : List BlockRow) (nt : List TxRow)
    (addrs : List String) (m : Nat) (h : processBlocks bs = .ok (nb, nt, addrs, m)) :
    nb.map BlockRow.height = heightsOfBatch bs ∧ m = maxOf (heightsOfBatch bs) := by
  induction bs generalizing nb nt addrs m with
  | nil =>
    unfold processBlocks at h
    injection h with h'
    have h1 : nb = [] := (congrArg (fun x => x.1) h').symm
    have h2 : m = 0 := (congrArg (fun x => x.2.2.2) h').symm
    subst h1; subst h2
    exact ⟨rfl, rfl⟩
  | cons bd rest ih =>
    obtain ⟨br, trs, bl, tl, al, m', hb, hr, rfl, rfl, rfl, rfl⟩ :=
      processBlocks_cons_ok bd rest nb nt addrs m h
    obtain ⟨ih1, ih2⟩ := ih bl tl al m' hr
    have hh := processBlock_ok_height bd br trs hb
    constructor
    · simp only [List.map_cons, ih1, heightsOfBatch, List.filterMap_cons, hh]
    · simp only [heightsOfBatch, List.filterMap_cons, hh, maxOf, List.foldr_cons]
      rw [ih2]; rfl

end Explorer

namespace Explorer

theorem exOk_eq_true {α : Type} (r : Except IndexErr α) (h : exOk r = true) :
    ∃ a, r = .ok a := by
  cases r with
  | ok a => exact ⟨a, rfl⟩
  | error e => simp [exOk] at h

/-- C3: `compute_block_hash` and `compute_tx_hash` are pure functions of
the fixed hashed field subsets (blocks: height, prev_hash, timestamp,
tx_root, state_root; transactions: type, from, to, amount, nonce,
signature): any two inputs that agree on the subset hash identically, so
two runs over identical input agree and a change to an excluded field
such as `gas_used` leaves the hash unchanged. -/
theorem hash_deterministic_depends_only_on_subset (b b' : BlockData) (t t' : TxData)
    (hb : blockHashedFields b = blockHashedFields b')
    (ht : txHashedFields t = txHashedFields t') :
    compute_block_hash b = compute_block_hash b' ∧ compute_tx_hash t = compute_tx_hash t' := by
  simp only [blockHashedFields, Prod.mk.injEq] at hb
  obtain ⟨hb1, hb2, hb3, hb4, hb5⟩ := hb
  simp only [txHashedFields, Prod.mk.injEq] at ht
  obtain ⟨ht1, ht2, ht3, ht4, ht5, ht6⟩ := ht
  constructor
  · unfold compute_block_hash blockHashInput
    rw [hb1, hb2, hb3, hb4, hb5]
  · unfold compute_tx_hash txHashInput
    rw [ht1, ht2, ht3, ht4, ht5, ht6]

/-- Witness for C3: `blkGas` differs from `blkD 1` only in `gas_used`
and `txGmod` from `txG` only in `gas_used`; the hashed field subsets
agree, so the hashes agree. -/
theorem hash_deterministic_depends_only_on_subset_witness :
    blockHashedFields (blkD 1) = blockHashedFields blkGas ∧
    txHashedFields txG = txHashedFields txGmod ∧
    blkGas.header.gas_used ≠ (blkD 1).header.gas_used ∧
    txGmod.gas_used ≠ txG.gas_used ∧
    compute_block_hash (blkD 1) = compute_block_hash blkGas ∧
    compute_tx_hash txG = compute_tx_hash txGmod :=
  ⟨rfl, rfl, by decide, by decide,
    (hash_deterministic_depends_only_on_subset (blkD 1) blkGas txG txGmod rfl rfl).1,
    (hash_deterministic_depends_only_on_subset (blkD 1) blkGas txG txGmod rfl rfl).2⟩

/-- C7: for divergence height `d ≥ 1` the rewind transaction of
`_handle_reorg` leaves exactly the transactions with `block_height < d`
and the blocks with `height < d`, keeps every block below `d`, and sets
the watermark to `d - 1`. -/
theorem reorg_rewind_deletes_from_divergence (db : DB) (d : Nat) (hd : 1 ≤ d) :
    (handleReorgRewind db d).txs = db.txs.filter (fun t => t.block_height < d) ∧
    (handleReorgRewind db d).blocks = db.blocks.filter (fun b => b.height < d) ∧
    getIndexedHeight (handleReorgRewind db d) = d - 1 ∧
    (∀ b ∈ db.blocks, b.height < d → b ∈ (handleReorgRewind db d).blocks) ∧
    (∀ b ∈ (handleReorgRewind db d).blocks, b.height < d) := by
  refine ⟨rfl, rfl, rfl, ?_, ?_⟩
  · intro b hb hlt
    exact List.mem_filter.mpr ⟨hb, by simpa using hlt⟩
  · intro b hb
    simpa using (List.mem_filter.mp hb).2

/-- Witness for C7: rewinding `db10` (heights 1..10, watermark 10) at
divergence height 7 keeps exactly heights 1..6, drops 7..10, and leaves
the watermark at 6. -/
theorem reorg_rewind_deletes_from_divergence_witness :
    1 ≤ 7 ∧
    (handleReorgRewind db10 7).txs = db10.txs.filter (fun t => t.block_height < 7) ∧
    (handleReorgRewind db10 7).blocks = db10.blocks.filter (fun b => b.height < 7) ∧
    getIndexedHeight (handleReorgRewind db10 7) = 6 ∧
    (handleReorgRewind db10 7).blocks.map BlockRow.height = [1, 2, 3, 4, 5, 6] ∧
    findBlock (handleReorgRewind db10 7) 7 = none ∧
    findBlock (handleReorgRewind db10 7) 10 = none :=
  ⟨by decide, (reorg_rewind_deletes_from_divergence db10 7 (by decide)).1,
    (reorg_rewind_deletes_from_divergence db10 7 (by decide)).2.1,
    (reorg_rewind_deletes_from_divergence db10 7 (by decide)).2.2.1,
    by decide, by decide, by decide⟩

end Explorer

namespace Explorer

theorem upsertAccount_accOk (now h : Nat) (base : List String) (accs : List AccountRow)
    (addr : String) (H : ∀ a ∈ accs, accOk now h base a) :
    ∀ a ∈ upsertAccount now h accs addr, accOk now h base a := by
  intro a ha
  unfold upsertAccount at ha
  split at ha
  · obtain ⟨a0, ha0, rfl⟩ := List.mem_map.mp ha
    by_cases heq : a0.address = addr
    · rw [if_pos heq]
      rcases H a0 ha0 with h1 | h2
      · exact Or.inl h1
      · exact Or.inr ⟨h2.1, h2.2.1, rfl, rfl⟩
    · rw [if_neg heq]
      exact H a0 ha0
  · rcases List.mem_append.mp ha with h1 | h2
    · exact H a h1
    · rw [List.mem_singleton.mp h2]
      exact Or.inr ⟨rfl, rfl, rfl, rfl⟩

theorem updateAccountsBatch_accOk (now h : Nat) (base : List String) (accs : List AccountRow)
    (addrs : List String) (H : ∀ a ∈ accs, accOk now h base a) :
    ∀ a ∈ updateAccountsBatch now h accs addrs, accOk now h base a := by
  induction addrs generalizing accs with
  | nil => exact H
  | cons addr rest ih =>
    exact ih (upsertAccount now h accs addr) (upsertAccount_accOk now h base accs addr H)

/-- C9 (amended): every row newly inserted into the Account ledger by
`_update_accounts_batch` carries `last_seen_height` = the batch height
and `last_seen_at` = the commit time, but its `first_seen_height` and
`first_seen_at` are left NULL — the insert statement never sets them. -/
theorem fresh_account_rows_lack_first_seen (now h : Nat) (accs : List AccountRow)
    (addrs : List String) (a : AccountRow)
    (ha : a ∈ updateAccountsBatch now h accs addrs)
    (hfresh : a.address ∉ accs.map AccountRow.address) :
    freshAccountFields now h a := by
  have base := updateAccountsBatch_accOk now h (accs.map AccountRow.address) accs addrs
    (fun a0 ha0 => Or.inl (List.mem_map.mpr ⟨a0, ha0, rfl⟩)) a ha
  rcases base with h1 | h2
  · exact absurd h1 hfresh
  · exact h2

/-- Witness for C9 (amended): upserting the unseen address `"alice"`
into an empty ledger at batch height 3, time 5, inserts `rowAlice`,
whose `first_seen_*` fields are NULL. -/
theorem fresh_account_rows_lack_first_seen_witness :
    rowAlice ∈ updateAccountsBatch 5 3 [] ["alice"] ∧
    rowAlice.address ∉ ([] : List AccountRow).map AccountRow.address ∧
    freshAccountFields 5 3 rowAlice :=
  ⟨by decide, by decide,
    fresh_account_rows_lack_first_seen 5 3 [] ["alice"] rowAlice (by decide) (by decide)⟩

/-- C9 counterexample: the claim says a first-time insert carries
`first_seen_height`/`first_seen_at`; in fact `_update_accounts_batch`
inserts the row for `"alice"` with both NULL (while `last_seen_*` are
set). -/
theorem first_seen_counterexample :
    (updateAccountsBatch 5 3 [] ["alice"]).map AccountRow.address = ["alice"] ∧
    (updateAccountsBatch 5 3 [] ["alice"]).map AccountRow.first_seen_height = [none] ∧
    (updateAccountsBatch 5 3 [] ["alice"]).map AccountRow.first_seen_at = [none] ∧
    (updateAccountsBatch 5 3 [] ["alice"]).map AccountRow.last_seen_height = [some 3] ∧
    (updateAccountsBatch 5 3 [] ["alice"]).map AccountRow.last_seen_at = [some 5] := by
  decide

end Explorer

namespace Explorer

theorem txRowsOfBlock_bad_tx (hgt : Nat) (txs : List TxData) (tx : TxData) (idx : Nat)
    (hmem : tx ∈ txs) (hbad : TxType.ofString (tx.tx_type.getD "TRANSFER") = none) :
    exOk (txRowsOfBlock hgt txs idx) = false := by
  induction txs generalizing idx with
  | nil => cases hmem
  | cons t rest ih =>
    unfold txRowsOfBlock
    rcases List.mem_cons.mp hmem with rfl | hmem'
    · rw [hbad]
      rfl
    · cases hp : TxType.ofString (t.tx_type.getD "TRANSFER") with
      | none => rfl
      | some ty =>
        have := ih (idx + 1) hmem'
        cases hr : txRowsOfBlock hgt rest (idx + 1) with
        | error e => rfl
        | ok rows => rw [hr] at this; simp [exOk] at this

theorem processBlock_bad_tx (bd : BlockData) (tx : TxData)
    (hmem : tx ∈ bd.txs) (hbad : TxType.ofString (tx.tx_type.getD "TRANSFER") = none) :
    exOk (processBlock bd) = false := by
  unfold processBlock
  split
  · rfl
  · rename_i v hh
    have hrows := txRowsOfBlock_bad_tx v bd.txs tx 0 hmem hbad
    split
    · rfl
    · rename_i rows ht
      rw [ht] at hrows
      simp [exOk] at hrows

theorem processBlocks_bad_block (bs : List BlockData) (bd : BlockData)
    (hmem : bd ∈ bs) (hbad : exOk (processBlock bd) = false) :
    exOk (processBlocks bs) = false := by
  induction bs with
  | nil => cases hmem
  | cons b rest ih =>
    unfold processBlocks
    rcases List.mem_cons.mp hmem with rfl | hmem'
    · cases hp : processBlock bd with
      | error e => rfl
      | ok p => rw [hp] at hbad; simp [exOk] at hbad
    · cases hp : processBlock b with
      | error e => rfl
      | ok p =>
        obtain ⟨br, trs⟩ := p
        have := ih hmem'
        cases hr : processBlocks rest with
        | error e => rfl
        | ok q => rw [hr] at this; simp [exOk] at this

/-- C5: `_index_blocks_batch` is atomic.  (a) Whenever the batch raises
(any `IndexErr`: missing height, unknown transaction type, or a
uniqueness violation at commit), the visible store is exactly the
pre-state — no Block/Transaction/Account row from the batch appears and
the watermark is unchanged — because `get_session_context` rolls the
whole transaction back and re-raises towards the coordinator's per-cycle
catch-all.  (b) In particular an unknown transaction type anywhere in
the batch makes the whole batch raise. -/
theorem persist_atomic_rollback (now : Nat) (db : DB) (bs : List BlockData) :
    (exOk (indexBlocksBatch now db bs) = false →
      applyBatch now db bs = db ∧
      (applyBatch now db bs).blocks = db.blocks ∧
      (applyBatch now db bs).txs = db.txs ∧
      (applyBatch now db bs).accounts = db.accounts ∧
      getIndexedHeight (applyBatch now db bs) = getIndexedHeight db) ∧
    (∀ bd ∈ bs, ∀ tx ∈ bd.txs,
      TxType.ofString (tx.tx_type.getD "TRANSFER") = none →
      exOk (indexBlocksBatch now db bs) = false) := by
  constructor
  · intro herr
    have happ : applyBatch now db bs = db := by
      unfold applyBatch
      cases hr : indexBlocksBatch now db bs with
      | ok db' => rw [hr] at herr; simp [exOk] at herr
      | error e => rfl
    exact ⟨happ, by rw [happ], by rw [happ], by rw [happ], by rw [happ]⟩
  · intro bd hbd tx htx hbad
    have hpb := processBlock_bad_tx bd tx htx hbad
    have hpbs := processBlocks_bad_block bs bd hbd hpb
    unfold indexBlocksBatch
    have hne : bs.isEmpty = false := by
      cases bs with
      | nil => cases hbd
      | cons b r => rfl
    rw [hne]
    simp only [Bool.false_eq_true, if_false]
    cases hr : processBlocks bs with
    | error e => rfl
    | ok q => rw [hr] at hpbs; simp [exOk] at hpbs

/-- Witness for C5: a batch containing `txBad` (unknown type tag
`"FOO"`) raises, and the store — including the watermark — is exactly
the empty pre-state. -/
theorem persist_atomic_rollback_witness :
    txBad ∈ blkBad.txs ∧
    TxType.ofString (txBad.tx_type.getD "TRANSFER") = none ∧
    exOk (indexBlocksBatch 0 emptyDB [blkBad]) = false ∧
    applyBatch 0 emptyDB [blkBad] = emptyDB ∧
    getIndexedHeight (applyBatch 0 emptyDB [blkBad]) = 0 := by
  have h := persist_atomic_rollback 0 emptyDB [blkBad]
  have hbad : exOk (indexBlocksBatch 0 emptyDB [blkBad]) = false :=
    h.2 blkBad (by decide) txBad (by decide) (by decide)
  exact ⟨by decide, by decide, hbad, (h.1 hbad).1, (h.1 hbad).2.2.2.2⟩

end Explorer

namespace Explorer

/-- C2 (amended): persistence is NOT idempotent-by-upsert.  Block and
Transaction rows are written insert-only (`session.add`), so re-running
`_index_blocks_batch` on an already committed non-empty range raises a
uniqueness violation (duplicate `blocks.height`) and the whole re-run
rolls back, leaving the store unchanged.  No rows are ever duplicated:
the unique constraints on block height/hash and transaction hash are
preserved by every successful run — but the re-run fails instead of
succeeding. -/
theorem persist_rerun_rolls_back_no_duplicates (now now' : Nat) (db : DB) (bs : List BlockData)
    (hok : exOk (indexBlocksBatch now db bs) = true) (hne : bs ≠ []) :
    indexBlocksBatch now' (applyBatch now db bs) bs = .error .uniqueViolation ∧
    applyBatch now' (applyBatch now db bs) bs = applyBatch now db bs ∧
    ((db.blocks.map BlockRow.height).Nodup →
      ((applyBatch now db bs).blocks.map BlockRow.height).Nodup) ∧
    ((db.blocks.map BlockRow.hash).Nodup →
      ((applyBatch now db bs).blocks.map BlockRow.hash).Nodup) ∧
    ((db.txs.map TxRow.hash).Nodup →
      ((applyBatch now db bs).txs.map TxRow.hash).Nodup) := by
  cases bs with
  | nil => exact absurd rfl hne
  | cons bd rest =>
  obtain ⟨db', heq⟩ := exOk_eq_true _ hok
  have happ : applyBatch now db (bd :: rest) = db' := by
    unfold applyBatch
    rw [heq]
  obtain ⟨nb, nt, addrs, maxH, hP, hu, hblocks, htxs, _⟩ :=
    indexBlocksBatch_ok_shape now db (bd :: rest) db' heq (by simp)
  obtain ⟨br, trs, bl, tl, al, m', _, _, hnb, _, _, _⟩ :=
    processBlocks_cons_ok bd rest nb nt addrs maxH hP
  simp only [uniqueOkB, Bool.and_eq_true] at hu
  obtain ⟨⟨huh, huhash⟩, hutx⟩ := hu
  have hmem : memB br.height (db'.blocks.map BlockRow.height) = true := by
    rw [memB_eq_true, hblocks, hnb]
    simp
  have hufalse : uniqueOkB db' nb nt = false := by
    unfold uniqueOkB
    have hfh : freshOk (db'.blocks.map BlockRow.height) (nb.map BlockRow.height) = false := by
      rw [hnb]
      simp only [List.map_cons]
      unfold freshOk
      rw [hmem]
      simp
    rw [hfh]
    simp
  have hfirst : indexBlocksBatch now' db' (bd :: rest) = .error .uniqueViolation := by
    unfold indexBlocksBatch
    rw [if_neg (by simp)]
    simp only [hP]
    rw [hufalse]
    simp
  rw [happ]
  refine ⟨hfirst, ?_, ?_, ?_, ?_⟩
  · unfold applyBatch
    rw [hfirst]
  · intro hnd
    obtain ⟨hdisj, hnodup⟩ := freshOk_sound _ _ huh
    rw [hblocks, List.map_append, List.nodup_append]
    exact ⟨hnd, hnodup, fun a ha hb => hdisj a hb ha⟩
  · intro hnd
    obtain ⟨hdisj, hnodup⟩ := freshOk_sound _ _ huhash
    rw [hblocks, List.map_append, List.nodup_append]
    exact ⟨hnd, hnodup, fun a ha hb => hdisj a hb ha⟩
  · intro hnd
    obtain ⟨hdisj, hnodup⟩ := freshOk_sound _ _ hutx
    rw [htxs, List.map_append, List.nodup_append]
    exact ⟨hnd, hnodup, fun a ha hb => hdisj a hb ha⟩

set_option maxRecDepth 100000 in
set_option maxHeartbeats 1000000 in
/-- C2 counterexample: the claim says re-running persist on an already
committed range succeeds; in fact persisting `[blkD 1]` into an empty
store and re-running the same batch raises (insert-only rows hit the
`blocks.height` unique constraint). -/
theorem persist_idempotent_rerun_counterexample :
    exOk (indexBlocksBatch 0 emptyDB [blkD 1]) = true ∧
    exOk (indexBlocksBatch 1 (applyBatch 0 emptyDB [blkD 1]) [blkD 1]) = false := by
  constructor <;> decide

set_option maxRecDepth 100000 in
set_option maxHeartbeats 1000000 in
/-- Witness for C2 (amended): the committed singleton range at height 1,
re-run with a later wall-clock time. -/
theorem persist_rerun_rolls_back_no_duplicates_witness :
    exOk (indexBlocksBatch 0 emptyDB [blkD 1]) = true ∧
    ([blkD 1] : List BlockData) ≠ [] ∧
    indexBlocksBatch 1 (applyBatch 0 emptyDB [blkD 1]) [blkD 1] = .error .uniqueViolation ∧
    applyBatch 1 (applyBatch 0 emptyDB [blkD 1]) [blkD 1] = applyBatch 0 emptyDB [blkD 1] := by
  have h := persist_rerun_rolls_back_no_duplicates 0 1 emptyDB [blkD 1] (by decide) (by decide)
  exact ⟨by decide, by decide, h.1, h.2.1⟩

end Explorer

namespace Explorer

theorem le_maxOf (l : List Nat) (x : Nat) (hx : x ∈ l) : x ≤ maxOf l := by
  induction l with
  | nil => cases hx
  | cons y r ih =>
    unfold maxOf at *
    simp only [List.foldr_cons]
    rcases List.mem_cons.mp hx with rfl | h
    · exact Nat.le_max_left _ _
    · exact le_trans (ih h) (Nat.le_max_right _ _)

theorem maxOf_append (l1 l2 : List Nat) : maxOf (l1 ++ l2) = max (maxOf l1) (maxOf l2) := by
  induction l1 with
  | nil => simp [maxOf]
  | cons x r ih =>
    unfold maxOf at *
    simp only [List.cons_append, List.foldr_cons]
    rw [ih]
    omega

theorem applyBatch_ok_facts (now : Nat) (db : DB) (bs : List BlockData)
    (hok : exOk (indexBlocksBatch now db bs) = true) (hne : bs ≠ []) :
    getIndexedHeight (applyBatch now db bs) = maxOf (heightsOfBatch bs) ∧
    (applyBatch now db bs).blocks.map BlockRow.height
      = db.blocks.map BlockRow.height ++ heightsOfBatch bs ∧
    heightsOfBatch bs ≠ [] := by
  obtain ⟨db', heq⟩ := exOk_eq_true _ hok
  have happ : applyBatch now db bs = db' := by
    unfold applyBatch
    rw [heq]
  obtain ⟨nb, nt, addrs, maxH, hP, hu, hblocks, htxs, hwm⟩ :=
    indexBlocksBatch_ok_shape now db bs db' heq hne
  obtain ⟨hmap, hmax⟩ := processBlocks_heights bs nb nt addrs maxH hP
  refine ⟨?_, ?_, ?_⟩
  · rw [happ]
    unfold getIndexedHeight
    rw [hwm]
    simpa using hmax
  · rw [happ, hblocks, List.map_append, hmap]
  · cases bs with
    | nil => exact absurd rfl hne
    | cons bd rest =>
      obtain ⟨br, trs, bl, tl, al, m', _, _, hnb, _, _, _⟩ :=
        processBlocks_cons_ok bd rest nb nt addrs maxH hP
      rw [← hmap, hnb]
      simp

theorem okStep_preserves_wmInv (now : Nat) (db : DB) (bs : List BlockData)
    (hstep : okStep now db bs) (hinv : wmInv db) :
    wmInv (applyBatch now db bs) ∧ WM db ≤ WM (applyBatch now db bs) := by
  obtain ⟨hne, hok, hcoord⟩ := hstep
  obtain ⟨hwm, hmap, hne2⟩ := applyBatch_ok_facts now db bs hok hne
  obtain ⟨h0, hh0⟩ := List.exists_mem_of_ne_nil _ hne2
  have hlt : WM db < maxOf (heightsOfBatch bs) :=
    lt_of_lt_of_le (hcoord h0 hh0) (le_maxOf _ h0 hh0)
  unfold wmInv WM at *
  rw [hwm, hmap, maxOf_append, ← hinv]
  constructor
  · omega
  · omega

theorem runBatches_wmInv (now : Nat) (batches : List (List BlockData)) (db : DB)
    (hseq : okSeq now db batches) (hinv : wmInv db) :
    wmInv (runBatches now db batches) ∧ WM db ≤ WM (runBatches now db batches) := by
  induction batches generalizing db with
  | nil => exact ⟨hinv, le_refl _⟩
  | cons bs rest ih =>
    obtain ⟨hstep, hrest⟩ := hseq
    obtain ⟨hinv', hle⟩ := okStep_preserves_wmInv now db bs hstep hinv
    obtain ⟨hinv'', hle'⟩ := ih (applyBatch now db bs) hrest hinv'
    exact ⟨hinv'', le_trans hle hle'⟩

/-- C4: after a successful non-empty batch commit the watermark equals
the maximum height actually present in the persisted set (and the
persisted rows extend the table by exactly the batch's header heights);
across a sequence of successful coordinator batches — each containing
only heights above the watermark, as the `[W+1, C]` sync range
guarantees — the watermark always equals the maximum height committed so
far and never decreases. -/
theorem watermark_equals_max_persisted_height (now : Nat) (db : DB) (bs : List BlockData)
    (hok : exOk (indexBlocksBatch now db bs) = true) (hne : bs ≠ []) :
    (getIndexedHeight (applyBatch now db bs) = maxOf (heightsOfBatch bs) ∧
      (applyBatch now db bs).blocks.map BlockRow.height
        = db.blocks.map BlockRow.height ++ heightsOfBatch bs) ∧
    ∀ batches, okSeq now db batches → wmInv db →
      wmInv (runBatches now db batches) ∧ WM db ≤ WM (runBatches now db batches) := by
  obtain ⟨h1, h2, _⟩ := applyBatch_ok_facts now db bs hok hne
  exact ⟨⟨h1, h2⟩, fun batches hseq hinv => runBatches_wmInv now batches db hseq hinv⟩

set_option maxRecDepth 200000 in
set_option maxHeartbeats 2000000 in
/-- Witness for C4: persisting `[blkD 1]` into an empty store sets the
watermark to 1 (its maximum height); the two-batch sequence
`[[blkD 1], [blkD 2]]` keeps the watermark equal to the maximum height
committed so far, ending at 2. -/
theorem watermark_equals_max_persisted_height_witness :
    exOk (indexBlocksBatch 0 emptyDB [blkD 1]) = true ∧
    ([blkD 1] : List BlockData) ≠ [] ∧
    okSeq 0 emptyDB [[blkD 1], [blkD 2]] ∧
    wmInv emptyDB ∧
    getIndexedHeight (applyBatch 0 emptyDB [blkD 1]) = maxOf (heightsOfBatch [blkD 1]) ∧
    wmInv (runBatches 0 emptyDB [[blkD 1], [blkD 2]]) ∧
    WM emptyDB ≤ WM (runBatches 0 emptyDB [[blkD 1], [blkD 2]]) ∧
    WM (runBatches 0 emptyDB [[blkD 1], [blkD 2]]) = 2 := by
  have hseq : okSeq 0 emptyDB [[blkD 1], [blkD 2]] := by
    exact ⟨⟨by decide, by decide, by decide⟩, ⟨by decide, by decide, by decide⟩, trivial⟩
  have h := watermark_equals_max_persisted_height 0 emptyDB [blkD 1] (by decide) (by decide)
  have h2 := h.2 [[blkD 1], [blkD 2]] hseq rfl
  exact ⟨by decide, by decide, hseq, rfl, h.1.1, h2.1, h2.2, by decide⟩

end Explorer

namespace Explorer

theorem countdown_head (n lo : Nat) (h : lo ≤ n + 1) :
    countdown (n + 1) lo = (n + 1) :: countdown n lo := by
  rw [countdown]
  rw [if_neg (by omega)]

/-- C1 (amended): `_check_reorg` scans the trailing window downward from
the watermark and stops at the FIRST hash mismatch it meets, so it
returns the highest divergent height in the window — not the lowest
height at which local and remote history diverge.  Whenever the locally
stored block at the watermark height itself diverges from the source's
recomputed canonical hash, detect returns the watermark height. -/
theorem detect_returns_tip_divergence (rd : Nat) (db : DB) (f : Nat → Option BlockData)
    (b : BlockRow) (cb : BlockData)
    (h0 : getIndexedHeight db ≠ 0)
    (hfind : findBlock db (getIndexedHeight db) = some b)
    (hf : f (getIndexedHeight db) = some cb)
    (hne : b.hash ≠ compute_block_hash cb) :
    checkReorgScan rd db f = some (getIndexedHeight db) := by
  unfold checkReorgScan
  dsimp only
  rw [if_neg h0]
  obtain ⟨n, hn⟩ : ∃ n, getIndexedHeight db = n + 1 :=
    ⟨getIndexedHeight db - 1, by omega⟩
  rw [hn] at hfind hf ⊢
  rw [countdown_head n _ (by omega)]
  unfold scanHeights
  rw [hfind, hf]
  dsimp only
  rw [if_pos hne]

set_option maxRecDepth 1000000 in
set_option maxHeartbeats 4000000 in
/-- Witness for C1 (amended): on the 1..10 chain with the source
diverging from height 7 upward, the stored block at the watermark height
10 diverges, and detect returns 10. -/
theorem detect_returns_tip_divergence_witness :
    getIndexedHeight db10 ≠ 0 ∧
    findBlock db10 (getIndexedHeight db10) = some (mkBlockRow 10 (blkD 10)) ∧
    f10 (getIndexedHeight db10) = some (blkR 10) ∧
    (mkBlockRow 10 (blkD 10)).hash ≠ compute_block_hash (blkR 10) ∧
    checkReorgScan 10 db10 f10 = some (getIndexedHeight db10) :=
  ⟨by decide, rfl, rfl, by decide,
    detect_returns_tip_divergence 10 db10 f10 (mkBlockRow 10 (blkD 10)) (blkR 10)
      (by decide) rfl rfl (by decide)⟩

set_option maxRecDepth 1000000 in
set_option maxHeartbeats 4000000 in
/-- C1 counterexample: for the locally stored chain of heights 1..10
(`db10`) and a source reporting a different canonical hash at every
height from 7 upward (`f10`) — conjuncts 1-4 verify the divergence at
7..10, conjuncts 5-10 the agreement at 1..6 — `_check_reorg` returns
divergence height 10, not 7 as the claim states. -/
theorem detect_lowest_divergence_counterexample :
    (findBlock db10 7).map BlockRow.hash ≠ (f10 7).map compute_block_hash ∧
    (findBlock db10 8).map BlockRow.hash ≠ (f10 8).map compute_block_hash ∧
    (findBlock db10 9).map BlockRow.hash ≠ (f10 9).map compute_block_hash ∧
    (findBlock db10 10).map BlockRow.hash ≠ (f10 10).map compute_block_hash ∧
    (findBlock db10 1).map BlockRow.hash = (f10 1).map compute_block_hash ∧
    (findBlock db10 2).map BlockRow.hash = (f10 2).map compute_block_hash ∧
    (findBlock db10 3).map BlockRow.hash = (f10 3).map compute_block_hash ∧
    (findBlock db10 4).map BlockRow.hash = (f10 4).map compute_block_hash ∧
    (findBlock db10 5).map BlockRow.hash = (f10 5).map compute_block_hash ∧
    (findBlock db10 6).map BlockRow.hash = (f10 6).map compute_block_hash ∧
    checkReorgScan 10 db10 f10 = some 10 ∧
    checkReorgScan 10 db10 f10 ≠ some 7 :=
  ⟨by decide, by decide, by decide, by decide,
    rfl, rfl, rfl, rfl, rfl, rfl,
    by decide, by decide⟩

/-- C8 (amended): the store transactions of persist
(`_index_blocks_batch`), of the reorg rewind, and of the watermark read
contain no Chain Source call, but `_check_reorg` violates the property:
it opens one store session around its whole scan loop and calls
`client.get_block` inside it, so whenever a locally stored block exists
at the watermark height a network call occurs inside the open store
transaction. -/
theorem store_tx_no_network_except_reorg_scan (bs : List BlockData) (rd : Nat) (db : DB)
    (f : Nat → Option BlockData) (b : BlockRow)
    (h0 : getIndexedHeight db ≠ 0)
    (hfind : findBlock db (getIndexedHeight db) = some b) :
    noNetDuringTx (indexBlocksBatchTrace bs) = true ∧
    noNetDuringTx handleReorgRewindTrace = true ∧
    noNetDuringTx getIndexedHeightTrace = true ∧
    noNetDuringTx (checkReorgTrace rd db f) = false := by
  refine ⟨?_, rfl, rfl, ?_⟩
  · unfold indexBlocksBatchTrace
    by_cases h : bs.isEmpty <;> simp [h, noNetDuringTx, noNetAux]
  · unfold checkReorgTrace
    dsimp only
    rw [if_neg h0]
    obtain ⟨n, hn⟩ : ∃ n, getIndexedHeight db = n + 1 :=
      ⟨getIndexedHeight db - 1, by omega⟩
    rw [hn] at hfind ⊢
    rw [countdown_head n _ (by omega)]
    unfold scanTrace
    rw [hfind]
    simp [getIndexedHeightTrace, noNetDuringTx, noNetAux]

/-- Witness for C8 (amended): the single-block store `dbC8` (watermark
1, block at height 1 present) with an unreachable source. -/
theorem store_tx_no_network_except_reorg_scan_witness :
    getIndexedHeight dbC8 ≠ 0 ∧
    findBlock dbC8 (getIndexedHeight dbC8) = some (mkBlockRow 1 (blkD 1)) ∧
    noNetDuringTx (indexBlocksBatchTrace [blkD 1]) = true ∧
    noNetDuringTx handleReorgRewindTrace = true ∧
    noNetDuringTx getIndexedHeightTrace = true ∧
    noNetDuringTx (checkReorgTrace 10 dbC8 fNone) = false :=
  ⟨by decide, rfl,
    (store_tx_no_network_except_reorg_scan [blkD 1] 10 dbC8 fNone (mkBlockRow 1 (blkD 1))
      (by decide) rfl).1,
    (store_tx_no_network_except_reorg_scan [blkD 1] 10 dbC8 fNone (mkBlockRow 1 (blkD 1))
      (by decide) rfl).2.1,
    (store_tx_no_network_except_reorg_scan [blkD 1] 10 dbC8 fNone (mkBlockRow 1 (blkD 1))
      (by decide) rfl).2.2.1,
    (store_tx_no_network_except_reorg_scan [blkD 1] 10 dbC8 fNone (mkBlockRow 1 (blkD 1))
      (by decide) rfl).2.2.2⟩

/-- C8 counterexample: on `dbC8` the `_check_reorg` event trace is
transaction-begin, transaction-end (watermark read), then
transaction-begin, NETWORK CALL, transaction-end — a `get_block` call
inside an open store transaction, refuting "no store transaction spans a
network call". -/
theorem no_net_during_tx_counterexample :
    checkReorgTrace 10 dbC8 fNone = [Ev.txBegin, Ev.txEnd, Ev.txBegin, Ev.netCall, Ev.txEnd] ∧
    noNetDuringTx (checkReorgTrace 10 dbC8 fNone) = false := by
  constructor <;> decide

end Explorer

namespace Explorer

/-! ### C6 support: fetch/sync structure -/

theorem heightsOfBatch_filterMap (f : Nat → Option BlockData) (l : List Nat)
    (hwf : ∀ h b, f h = some b → b.header.height = some h) :
    heightsOfBatch (l.filterMap f) = succHs f l := by
  induction l with
  | nil => rfl
  | cons x r ih =>
    unfold heightsOfBatch succHs at *
    cases hx : f x with
    | none => simp [List.filterMap_cons, hx, ih]
    | some b => simp [List.filterMap_cons, hx, hwf x b hx, ih]

theorem succHs_append (f : Nat → Option BlockData) (l1 l2 : List Nat) :
    succHs f (l1 ++ l2) = succHs f l1 ++ succHs f l2 := by
  unfold succHs
  exact List.filterMap_append _ _ _

theorem succHs_sublist (f : Nat → Option BlockData) (l : List Nat) :
    (succHs f l).Sublist l := by
  induction l with
  | nil => simp [succHs]
  | cons x r ih =>
    unfold succHs at *
    cases hx : f x with
    | none =>
      simp only [List.filterMap_cons, hx]
      exact ih.cons _
    | some b =>
      simp only [List.filterMap_cons, hx, Option.map_some']
      exact ih.cons₂ _

theorem mem_succHs (f : Nat → Option BlockData) (l : List Nat) (h : Nat) :
    h ∈ succHs f l ↔ h ∈ l ∧ f h ≠ none := by
  unfold succHs
  rw [List.mem_filterMap]
  constructor
  · rintro ⟨a, ha, hfa⟩
    cases hf : f a with
    | none => rw [hf] at hfa; cases hfa
    | some b =>
      rw [hf] at hfa
      simp only [Option.map_some', Option.some.injEq] at hfa
      subst hfa
      exact ⟨ha, by simp [hf]⟩
  · rintro ⟨hl, hne⟩
    cases hf : f h with
    | none => exact absurd hf hne
    | some b => exact ⟨h, hl, by simp [hf]⟩

theorem syncGo_all_success (now : Nat) (f : Nat → Option BlockData) (e : Nat)
    (hwf : ∀ h b, f h = some b → b.header.height = some h) :
    ∀ fuel s db, e + 1 - s ≤ fuel →
      (∀ p ∈ subBatchesAux fuel s e, fetchBatch f p.1 p.2 ≠ []) →
      (syncGo now f db (subBatchesAux fuel s e)).2 = none →
      (syncGo now f db (subBatchesAux fuel s e)).1.blocks.map BlockRow.height
        = db.blocks.map BlockRow.height ++ succHs f (List.range' s (e + 1 - s)) := by
  intro fuel
  induction fuel with
  | zero =>
    intro s db hfe _ _
    have h0 : e + 1 - s = 0 := by omega
    rw [h0]
    simp [subBatchesAux, syncGo, succHs]
  | succ fuel ih =>
    intro s db hfe hsb hrun
    by_cases hse : e < s
    · have h0 : e + 1 - s = 0 := by omega
      rw [h0]
      unfold subBatchesAux at hsb hrun ⊢
      rw [if_pos hse] at hsb hrun ⊢
      simp [syncGo, succHs]
    · have hsub : subBatchesAux (fuel + 1) s e
          = (s, min (s + (BATCH_SIZE - 1)) e) :: subBatchesAux fuel (s + BATCH_SIZE) e := by
        conv_lhs => rw [subBatchesAux]
        rw [if_neg hse]
      rw [hsub] at hsb hrun ⊢
      have hvne : fetchBatch f s (min (s + (BATCH_SIZE - 1)) e) ≠ [] :=
        hsb _ (List.mem_cons_self _ _)
      have hie : (fetchBatch f s (min (s + (BATCH_SIZE - 1)) e)).isEmpty = false := by
        cases hv : fetchBatch f s (min (s + (BATCH_SIZE - 1)) e) with
        | nil => exact absurd hv hvne
        | cons a r => rfl
      rw [syncGo] at hrun ⊢
      rw [hie] at hrun ⊢
      simp only [Bool.false_eq_true, if_false] at hrun ⊢
      cases hpersist : indexBlocksBatch now db (fetchBatch f s (min (s + (BATCH_SIZE - 1)) e)) with
      | error err =>
        rw [hpersist] at hrun
        simp at hrun
      | ok db' =>
        rw [hpersist] at hrun
        dsimp only at hrun ⊢
        have hok : exOk (indexBlocksBatch now db (fetchBatch f s (min (s + (BATCH_SIZE - 1)) e)))
            = true := by rw [hpersist]; rfl
        have happ : applyBatch now db (fetchBatch f s (min (s + (BATCH_SIZE - 1)) e)) = db' := by
          unfold applyBatch
          rw [hpersist]
        have hblocks :=
          (applyBatch_ok_facts now db (fetchBatch f s (min (s + (BATCH_SIZE - 1)) e)) hok hvne).2.1
        rw [happ] at hblocks
        have hrec := ih (s + BATCH_SIZE) db' (by simp [BATCH_SIZE] at *; omega)
          (fun p hp => hsb p (List.mem_cons_of_mem _ hp)) hrun
        rw [hrec, hblocks]
        have hfetch : fetchBatch f s (min (s + (BATCH_SIZE - 1)) e)
            = (List.range' s (min BATCH_SIZE (e + 1 - s))).filterMap f := by
          unfold fetchBatch
          have : min (s + (BATCH_SIZE - 1)) e - s + 1 = min BATCH_SIZE (e + 1 - s) := by
            simp [BATCH_SIZE]
            omega
          rw [this]
        rw [hfetch, heightsOfBatch_filterMap f _ hwf]
        have hsplit : List.range' s (e + 1 - s)
            = List.range' s (min BATCH_SIZE (e + 1 - s))
              ++ List.range' (s + BATCH_SIZE) (e + 1 - (s + BATCH_SIZE)) := by
          by_cases h50 : e + 1 - s ≤ BATCH_SIZE
          · have hmin : min BATCH_SIZE (e + 1 - s) = e + 1 - s := by omega
            have hz : e + 1 - (s + BATCH_SIZE) = 0 := by simp [BATCH_SIZE] at *; omega
            rw [hmin, hz]
            simp
          · have hmin : min BATCH_SIZE (e + 1 - s) = BATCH_SIZE := by omega
            rw [hmin]
            have := List.range'_append_1 s BATCH_SIZE (e + 1 - (s + BATCH_SIZE))
            rw [this]
            congr 1
            simp [BATCH_SIZE] at *
            omega
        rw [hsplit, succHs_append, List.append_assoc]

/-- C6: when every sub-batch of the range has at least one successful
fetch and every persist succeeds, `_sync_blocks_batch` commits exactly
the blocks of the heights that fetched successfully — each per-height
failure is excluded individually — in ascending height order: the block
table is extended by precisely the successful heights of `[s..e]`,
which form a sorted sublist of the range; a height of the range is
committed iff its fetch succeeded. -/
theorem fetcher_yields_sorted_successes_persisted (now : Nat) (f : Nat → Option BlockData)
    (db : DB) (s e : Nat)
    (hwf : ∀ h b, f h = some b → b.header.height = some h)
    (hsb : ∀ p ∈ subBatches s e, fetchBatch f p.1 p.2 ≠ [])
    (hrun : (syncBlocksBatch now f db s e).2 = none) :
    (syncBlocksBatch now f db s e).1.blocks.map BlockRow.height
      = db.blocks.map BlockRow.height ++ succHs f (List.range' s (e + 1 - s)) ∧
    List.Sorted (· < ·) (succHs f (List.range' s (e + 1 - s))) ∧
    (∀ h ∈ succHs f (List.range' s (e + 1 - s)), f h ≠ none) ∧
    (∀ h, s ≤ h → h ≤ e → f h ≠ none → h ∈ succHs f (List.range' s (e + 1 - s))) := by
  refine ⟨?_, ?_, ?_, ?_⟩
  · exact syncGo_all_success now f e hwf (e + 1 - s) s db (le_refl _) hsb hrun
  · exact (List.pairwise_lt_range' s (e + 1 - s)).sublist (succHs_sublist f _)
  · intro h hh
    exact ((mem_succHs f _ h).mp hh).2
  · intro h hs he hne
    refine (mem_succHs f _ h).mpr ⟨?_, hne⟩
    rw [List.mem_range'_1]
    omega

end Explorer

namespace Explorer

theorem fC6_wf : ∀ h b, fC6 h = some b → b.header.height = some h := by
  intro h b hb
  unfold fC6 at hb
  split at hb
  · injection hb with hb'
    rw [← hb']
    rfl
  · cases hb

set_option maxRecDepth 2000000 in
set_option maxHeartbeats 4000000 in
/-- Witness for C6: syncing the sub-range `[111..125]` of the source
that fails only at height 120: the cycle runs to completion with no
persist error, commits exactly the 14 successful heights in ascending
order, and height 120 — the lone failure — is excluded without aborting
its siblings. -/
theorem fetcher_yields_sorted_successes_persisted_witness :
    (syncBlocksBatch 0 fC6 emptyDB 111 125).2 = none ∧
    (syncBlocksBatch 0 fC6 emptyDB 111 125).1.blocks.map BlockRow.height
      = succHs fC6 (List.range' 111 15) ∧
    List.Sorted (· < ·) (succHs fC6 (List.range' 111 15)) ∧
    (succHs fC6 (List.range' 111 15)).length = 14 ∧
    120 ∉ succHs fC6 (List.range' 111 15) ∧
    fC6 120 = none ∧
    fC6 119 ≠ none ∧ fC6 121 ≠ none := by
  have hrun : (syncBlocksBatch 0 fC6 emptyDB 111 125).2 = none := by decide
  have h := fetcher_yields_sorted_successes_persisted 0 fC6 emptyDB 111 125 fC6_wf
    (by decide) hrun
  exact ⟨hrun, h.1, h.2.1, by decide, by decide, by decide, by decide, by decide⟩

/-! ### C10 support: provenance of persisted transaction rows -/

theorem txRowsOfBlock_rows (hgt : Nat) (txs : List TxData) (idx : Nat) (rows : List TxRow)
    (h : txRowsOfBlock hgt txs idx = .ok rows) :
    ∀ r ∈ rows, ∃ tx ∈ txs, ∃ i ty,
      TxType.ofString (tx.tx_type.getD "TRANSFER") = some ty ∧ r = mkTxRow hgt i ty tx := by
  induction txs generalizing idx rows with
  | nil =>
    unfold txRowsOfBlock at h
    injection h with h'
    subst h'
    intro r hr
    cases hr
  | cons t rest ih =>
    unfold txRowsOfBlock at h
    split at h
    · cases h
    · rename_i ty hty
      split at h
      · cases h
      · rename_i rows' hrec
        injection h with h'
        subst h'
        intro r hr
        rcases List.mem_cons.mp hr with rfl | hr'
        · exact ⟨t, List.mem_cons_self _ _, idx, ty, hty, rfl⟩
        · obtain ⟨tx, htx, i, ty', hty', heq⟩ := ih (idx + 1) rows' hrec r hr'
          exact ⟨tx, List.mem_cons_of_mem _ htx, i, ty', hty', heq⟩

theorem processBlock_rows (bd : BlockData) (br : BlockRow) (trs : List TxRow)
    (h : processBlock bd = .ok (br, trs)) :
    ∀ r ∈ trs, ∃ tx ∈ bd.txs, ∃ hgt i ty,
      TxType.ofString (tx.tx_type.getD "TRANSFER") = some ty ∧ r = mkTxRow hgt i ty tx := by
  unfold processBlock at h
  split at h
  · cases h
  · rename_i v hh
    split at h
    · cases h
    · rename_i rows ht
      injection h with h'
      have h2 : rows = trs := (Prod.ext_iff.mp h').2
      subst h2
      intro r hr
      obtain ⟨tx, htx, i, ty, hty, heq⟩ := txRowsOfBlock_rows v bd.txs 0 rows ht r hr
      exact ⟨tx, htx, v, i, ty, hty, heq⟩

theorem processBlocks_rows (bs : List BlockData) (nb : List BlockRow) (nt : List TxRow)
    (addrs : List String) (m : Nat) (h : processBlocks bs = .ok (nb, nt, addrs, m)) :
    ∀ r ∈ nt, ∃ bd ∈ bs, ∃ tx ∈ bd.txs, ∃ hgt i ty,
      TxType.ofString (tx.tx_type.getD "TRANSFER") = some ty ∧ r = mkTxRow hgt i ty tx := by
  induction bs generalizing nb nt addrs m with
  | nil =>
    unfold processBlocks at h
    injection h with h'
    have hnt : nt = [] := (congrArg (fun x => x.2.1) h').symm
    subst hnt
    intro r hr
    cases hr
  | cons bd rest ih =>
    obtain ⟨br, trs, bl, tl, al, m', hb, hrec, _, hnt, _, _⟩ :=
      processBlocks_cons_ok bd rest nb nt addrs m h
    subst hnt
    intro r hrm
    rcases List.mem_append.mp hrm with h1 | h2
    · obtain ⟨tx, htx, hgt, i, ty, hty, heq⟩ := processBlock_rows bd br trs hb r h1
      exact ⟨bd, List.mem_cons_self _ _, tx, htx, hgt, i, ty, hty, heq⟩
    · obtain ⟨bd', hbd', tx, htx, hgt, i, ty, hty, heq⟩ := ih bl tl al m' hrec r h2
      exact ⟨bd', List.mem_cons_of_mem _ hbd', tx, htx, hgt, i, ty, hty, heq⟩

set_option maxHeartbeats 1000000 in
/-- C10: every transaction row committed by `_index_blocks_batch`
stores the SOURCE transaction's `gas_limit` value (defaulting to 0 when
absent) in its `gas_used` column — the code reads
`gas_used=tx_data.get("gas_limit", 0)` — not the source's `gas_used`;
consequently every persisted row satisfies `gas_used = gas_limit`. -/
theorem tx_gas_used_comes_from_gas_limit (now : Nat) (db : DB) (bs : List BlockData)
    (hok : exOk (indexBlocksBatch now db bs) = true) (hne : bs ≠ []) :
    ∃ nt, (applyBatch now db bs).txs = db.txs ++ nt ∧
      ∀ r ∈ nt, ∃ bd ∈ bs, ∃ tx ∈ bd.txs,
        r.gas_used = tx.gas_limit.getD 0 ∧
        r.gas_limit = tx.gas_limit.getD 0 ∧
        r.gas_used = r.gas_limit ∧
        r.hash = compute_tx_hash tx := by
  obtain ⟨db', heq⟩ := exOk_eq_true _ hok
  have happ : applyBatch now db bs = db' := by
    unfold applyBatch
    rw [heq]
  obtain ⟨nb, nt, addrs, maxH, hP, _, _, htxs, _⟩ :=
    indexBlocksBatch_ok_shape now db bs db' heq hne
  refine ⟨nt, by rw [happ, htxs], ?_⟩
  intro r hr
  obtain ⟨bd, hbd, tx, htx, hgt, i, ty, hty, heqr⟩ :=
    processBlocks_rows bs nb nt addrs maxH hP r hr
  subst heqr
  refine ⟨bd, hbd, tx, htx, rfl, rfl, rfl, ?_⟩
  simp only [mkTxRow]

set_option maxRecDepth 400000 in
set_option maxHeartbeats 2000000 in
/-- Witness for C10: persisting the block `blkT` carrying `txG`
(source `gas_limit` 30000, source `gas_used` 21000): the stored row has
`gas_used = 30000 = gas_limit`, not the source's 21000. -/
theorem tx_gas_used_comes_from_gas_limit_witness :
    exOk (indexBlocksBatch 0 emptyDB [blkT]) = true ∧
    ([blkT] : List BlockData) ≠ [] ∧
    (applyBatch 0 emptyDB [blkT]).txs.map TxRow.gas_used = [30000] ∧
    (applyBatch 0 emptyDB [blkT]).txs.map TxRow.gas_limit = [30000] ∧
    txG.gas_used = some 21000 ∧ txG.gas_limit = some 30000 := by
  have hmain := tx_gas_used_comes_from_gas_limit 0 emptyDB [blkT] (by decide) (by decide)
  exact ⟨by decide, by decide, by decide, by decide, by decide, by decide⟩

end Explorer
